import Mathlib

/-!
Verification of the probe-engine instrumentation and archival core.

The development shallowly embeds the Go sources:
* `src/netx/archival/archival.go` (archival serializer, binary-safe JSON encoding),
* `src/unnamed/part_001` (the resolver error-wrapping decorator).

The error normalizer (`toFailureString`, `toOperationString`, the IP scrubber)
and the event-trace implementation are not part of the provided sources (only
`errwrapper_test.go` is); those definitions are modelled from the spec, and
are marked as such in their doc comments.
-/

namespace ProbeEngine

/-! ### Character classes used by the IP-literal scrubber -/

/-- Decimal digit characters. -/
def isDigit (c : Char) : Bool := '0' ≤ c && c ≤ '9'

/-- Hexadecimal digit characters. -/
def isHex (c : Char) : Bool :=
  isDigit c || ('a' ≤ c && c ≤ 'f') || ('A' ≤ c && c ≤ 'F')

/-- Characters that may occur inside an IPv6 group run. -/
def isHexColon (c : Char) : Bool := isHex c || c = ':'

/-- Numeric value of a run of decimal digits. -/
def digitsVal (l : List Char) : Nat :=
  l.foldl (fun a c => a * 10 + (c.toNat - 48)) 0

/-- Consume one expected character. -/
def expectChar (c : Char) : List Char → Option (List Char)
  | [] => none
  | x :: rest => if x = c then some rest else none

/-- Modelled from the spec: one dotted-quad component of an IPv4 literal
(1 to 3 digits, value at most 255), returning the rest of the input. -/
def parseOctet (l : List Char) : Option (List Char) :=
  let ds := l.takeWhile isDigit
  if ds.length = 0 || 3 < ds.length then none
  else if digitsVal ds ≤ 255 then some (l.dropWhile isDigit) else none

/-- Modelled from the spec: an optional port suffix (a colon followed by
digits) attached to a matched address; consumed as part of the match. -/
def parsePort (l : List Char) : List Char :=
  match l with
  | ':' :: rest =>
    if (rest.takeWhile isDigit).length = 0 then l else rest.dropWhile isDigit
  | _ => l

/-- Modelled from the spec: an IPv4 literal (dotted quad) together with an
optionally attached port, returning the rest after the match. -/
def matchIPv4 (l : List Char) : Option (List Char) :=
  (parseOctet l).bind fun r1 =>
  (expectChar '.' r1).bind fun r2 =>
  (parseOctet r2).bind fun r3 =>
  (expectChar '.' r3).bind fun r4 =>
  (parseOctet r4).bind fun r5 =>
  (expectChar '.' r5).bind fun r6 =>
  (parseOctet r6).bind fun r7 =>
  some (parsePort r7)

/-- Modelled from the spec: a bracketed IPv6 literal such as `[::1]` with an
optionally attached port. -/
def matchBracket6 (l : List Char) : Option (List Char) :=
  (expectChar '[' l).bind fun r1 =>
  let run := r1.takeWhile isHexColon
  if run.contains ':' && 2 ≤ run.length then
    (expectChar ']' (r1.dropWhile isHexColon)).bind fun r2 =>
    some (parsePort r2)
  else none

/-- Modelled from the spec: a bare IPv6 literal, recognised as a maximal run
of hexadecimal digits and colons containing at least two colons. -/
def matchBare6 (l : List Char) : Option (List Char) :=
  let run := l.takeWhile isHexColon
  if 2 ≤ run.count ':' then some (l.dropWhile isHexColon) else none

/-- Modelled from the spec: try to match an IPv4 or IPv6 literal address
(with optionally attached port) at the head of the input. -/
def matchAddr (l : List Char) : Option (List Char) :=
  match matchIPv4 l with
  | some r => some r
  | none =>
    match matchBracket6 l with
    | some r => some r
    | none => matchBare6 l

/-- The fixed placeholder token used by the scrubber. -/
def scrubbedTok : List Char := "[scrubbed]".data

/-- Modelled from the spec: the scrubber loop, with explicit fuel (the fuel
is instantiated with the input length, which suffices because every match
consumes at least one character). Every substring matching an IPv4 or IPv6
literal address is replaced by the placeholder; all other characters are
copied verbatim. -/
def scrubFuel : Nat → List Char → List Char
  | 0, l => l
  | _ + 1, [] => []
  | f + 1, c :: cs =>
    match matchAddr (c :: cs) with
    | some rest => scrubbedTok ++ scrubFuel f rest
    | none => c :: scrubFuel f cs

/-- Modelled from the spec: scrub IP literals out of a character list. -/
def scrubChars (l : List Char) : List Char := scrubFuel l.length l

/-- Modelled from the spec: scrub IP literals out of a string. -/
def scrub (s : String) : String := ⟨scrubChars s.data⟩

/-! ### Basic facts about the matcher -/

theorem expectChar_length {c : Char} {l r : List Char}
    (h : expectChar c l = some r) : r.length < l.length := by
  cases l with
  | nil => simp [expectChar] at h
  | cons x rest =>
    simp only [expectChar] at h
    split at h
    · cases h; simp
    · cases h

theorem dropWhile_length_le (p : Char → Bool) (l : List Char) :
    (l.dropWhile p).length ≤ l.length := by
  induction l with
  | nil => simp
  | cons x rest ih =>
    simp only [List.dropWhile]
    split
    · exact Nat.le_succ_of_le ih
    · simp

theorem parseOctet_length {l r : List Char} (h : parseOctet l = some r) :
    r.length < l.length := by
  simp only [parseOctet] at h
  split at h
  · cases h
  · split at h
    · cases h
      have hl := List.takeWhile_append_dropWhile (p := isDigit) (l := l)
      have htw : 1 ≤ (l.takeWhile isDigit).length := by
        rename_i hcond _
        simp only [Bool.or_eq_true, decide_eq_true_eq, not_or] at hcond
        omega
      have : (l.takeWhile isDigit).length + (l.dropWhile isDigit).length = l.length := by
        rw [← List.length_append, hl]
      omega
    · cases h

theorem parsePort_length (l : List Char) : (parsePort l).length ≤ l.length := by
  unfold parsePort
  split
  · rename_i rest
    split
    · exact Nat.le_refl _
    · have := dropWhile_length_le isDigit rest
      simp only [List.length_cons]
      omega
  · exact Nat.le_refl _

theorem matchIPv4_length {l r : List Char} (h : matchIPv4 l = some r) :
    r.length < l.length := by
  simp only [matchIPv4, Option.bind_eq_bind, Option.bind_eq_some] at h
  obtain ⟨r1, h1, r2, h2, r3, h3, r4, h4, r5, h5, r6, h6, r7, h7, hr⟩ := h
  cases hr
  have e1 := parseOctet_length h1
  have e2 := expectChar_length h2
  have e3 := parseOctet_length h3
  have e4 := expectChar_length h4
  have e5 := parseOctet_length h5
  have e6 := expectChar_length h6
  have e7 := parseOctet_length h7
  have e8 := parsePort_length r7
  omega

theorem matchBracket6_length {l r : List Char} (h : matchBracket6 l = some r) :
    r.length < l.length := by
  simp only [matchBracket6, Option.bind_eq_bind, Option.bind_eq_some] at h
  obtain ⟨r1, h1, h2⟩ := h
  have e1 := expectChar_length h1
  split at h2
  · simp only [Option.bind_eq_some] at h2
    obtain ⟨r2, h3, hr⟩ := h2
    cases hr
    have e2 := expectChar_length h3
    have e3 := parsePort_length r2
    have e4 := dropWhile_length_le isHexColon r1
    omega
  · cases h2

theorem matchBare6_length {l r : List Char} (h : matchBare6 l = some r) :
    r.length < l.length := by
  simp only [matchBare6] at h
  split at h
  · cases h
    rename_i hcount
    have hrun : 1 ≤ (l.takeWhile isHexColon).length := by
      have := List.count_le_length (a := ':') (l := l.takeWhile isHexColon)
      omega
    have hl := List.takeWhile_append_dropWhile (p := isHexColon) (l := l)
    have : (l.takeWhile isHexColon).length + (l.dropWhile isHexColon).length = l.length := by
      rw [← List.length_append, hl]
    omega
  · cases h

theorem matchAddr_length {l r : List Char} (h : matchAddr l = some r) :
    r.length < l.length := by
  simp only [matchAddr] at h
  split at h
  · cases h; exact matchIPv4_length (by assumption)
  · split at h
    · cases h; exact matchBracket6_length (by assumption)
    · exact matchBare6_length h

/-! ### The scrubber replaces addresses and preserves other text -/

theorem scrubFuel_congr : ∀ (f f' : Nat) (l : List Char), l.length ≤ f →
    l.length ≤ f' → scrubFuel f l = scrubFuel f' l := by
  intro f
  induction f with
  | zero =>
    intro f' l hl _
    have : l = [] := by
      cases l
      · rfl
      · simp at hl
    subst this
    cases f' <;> rfl
  | succ f ih =>
    intro f' l hl hl'
    cases l with
    | nil => cases f' <;> rfl
    | cons c cs =>
      obtain ⟨f'', rfl⟩ : ∃ f'', f' = f'' + 1 := by
        cases f'
        · simp at hl'
        · exact ⟨_, rfl⟩
      simp only [scrubFuel]
      cases hm : matchAddr (c :: cs) with
      | some rest =>
        have hlen := matchAddr_length hm
        simp only [List.length_cons] at hlen hl hl'
        dsimp only
        rw [ih f'' rest (by omega) (by omega)]
      | none =>
        simp only [List.length_cons] at hl hl'
        dsimp only
        rw [ih f'' cs (by omega) (by omega)]

theorem scrubFuel_fuel {f : Nat} {l : List Char} (h : l.length ≤ f) :
    scrubFuel f l = scrubChars l :=
  scrubFuel_congr f l.length l h (Nat.le_refl _)

/-- A segment of an error message: either plain text or an IP-literal
address (with its attached port, which the matcher consumes as part of
the address occurrence). -/
inductive Chunk where
  | text (s : String)
  | addr (s : String)
deriving DecidableEq

/-- The raw message denoted by a segment decomposition. -/
def renderChunks : List Chunk → List Char
  | [] => []
  | .text s :: r => s.data ++ renderChunks r
  | .addr s :: r => s.data ++ renderChunks r

/-- The message with every address segment replaced by the placeholder
and every text segment kept verbatim. -/
def renderScrubbed : List Chunk → List Char
  | [] => []
  | .text s :: r => s.data ++ renderScrubbed r
  | .addr s :: r => scrubbedTok ++ renderScrubbed r

/-- A text segment is safe when the matcher fires at none of its
positions (taking the rest of the message into account). -/
def textSafe : List Char → List Char → Bool
  | [], _ => true
  | c :: b, rest => (matchAddr (c :: (b ++ rest))).isNone && textSafe b rest

/-- A decomposition is well formed when each text segment is safe and the
matcher consumes each address segment exactly. -/
def chunksWF : List Chunk → Bool
  | [] => true
  | .text s :: r => textSafe s.data (renderChunks r) && chunksWF r
  | .addr s :: r =>
    decide (matchAddr (s.data ++ renderChunks r) = some (renderChunks r)) && chunksWF r

theorem scrubChars_nil : scrubChars [] = [] := rfl

theorem scrubChars_text {a rest : List Char} (h : textSafe a rest = true) :
    scrubChars (a ++ rest) = a ++ scrubChars rest := by
  induction a with
  | nil => simp
  | cons c b ih =>
    simp only [textSafe, Bool.and_eq_true, Option.isNone_iff_eq_none] at h
    obtain ⟨hm, hsafe⟩ := h
    show scrubFuel (c :: (b ++ rest)).length (c :: (b ++ rest)) = _
    simp only [List.length_cons, scrubFuel, List.cons_append] at hm ⊢
    rw [hm]
    dsimp only
    rw [scrubFuel_fuel (by simp)]
    rw [ih hsafe]

theorem scrubChars_addr {s rest : List Char}
    (h : matchAddr (s ++ rest) = some rest) :
    scrubChars (s ++ rest) = scrubbedTok ++ scrubChars rest := by
  have hlen := matchAddr_length h
  cases s with
  | nil => simp at hlen
  | cons c t =>
    show scrubFuel (c :: (t ++ rest)).length (c :: (t ++ rest)) = _
    simp only [List.cons_append] at h
    simp only [List.length_cons, scrubFuel, h]
    rw [scrubFuel_fuel (by simp only [List.length_append]; omega)]

/-- Scrubbing a well-formed decomposition replaces every address segment
with the placeholder and keeps every text segment verbatim. -/
theorem scrubChars_chunks {ps : List Chunk} (h : chunksWF ps = true) :
    scrubChars (renderChunks ps) = renderScrubbed ps := by
  induction ps with
  | nil => rfl
  | cons p r ih =>
    cases p with
    | text s =>
      simp only [chunksWF, Bool.and_eq_true] at h
      simp only [renderChunks, renderScrubbed]
      rw [scrubChars_text h.1, ih h.2]
    | addr s =>
      simp only [chunksWF, Bool.and_eq_true, decide_eq_true_eq] at h
      simp only [renderChunks, renderScrubbed]
      rw [scrubChars_addr h.1, ih h.2]

/-! ### The error normalizer

The `errwrapper` package itself is not under the provided sources (only its
test is), so the classifier is modelled from the spec's priority list in
§4.2, with the fallback string checked against the test's expectations. -/

/-- Does `s` start with `pat`? -/
def startsWithSeq : List Char → List Char → Bool
  | [], _ => true
  | _ :: _, [] => false
  | p :: ps, c :: cs => p = c && startsWithSeq ps cs

/-- Does `s` contain `pat` as a contiguous substring? -/
def containsSeq (pat : List Char) : List Char → Bool
  | [] => startsWithSeq pat []
  | c :: cs => startsWithSeq pat (c :: cs) || containsSeq pat cs

/-- Modelled from the spec: the shapes of raw Go errors that the
classifier distinguishes. A `wrapper` is an already-normalized
`modelx.ErrWrapper` carrying its stored failure string, attributed
operation, correlation ids and the wrapped raw error. -/
inductive GoError where
  | wrapper (failure : String) (operation : String)
      (connID dialID transactionID : Int) (wrappedErr : GoError)
  | deadlineExceeded
  | eofError
  | dnsNoSuchHost
  | dnsBogon
  | sslInvalidHostname
  | sslUnknownAuthority
  | sslInvalidCertificate
  | connectionRefused
  | connectionReset
  | generic (msg : String)
deriving DecidableEq

/-- The literal TLS-handshake-timeout message matched by priority (7). -/
def tlsHandshakeTimeoutMsg : String := "net/http: TLS handshake timeout"

/-- Modelled from the spec: `toFailureString` maps a raw error to a
failure string. A previously-normalized wrapper's stored failure is
reused verbatim; otherwise the error is classified by its shape in the
spec's priority order, falling back to an `unknown_failure` string with
the message scrubbed of IP literals. -/
def toFailureString : GoError → String
  | .wrapper failure _ _ _ _ _ => failure
  | .deadlineExceeded => "generic_timeout_error"
  | .eofError => "eof_error"
  | .dnsNoSuchHost => "dns_nxdomain_error"
  | .dnsBogon => "dns_bogon_error"
  | .sslInvalidHostname => "ssl_invalid_hostname"
  | .sslUnknownAuthority => "ssl_unknown_authority"
  | .sslInvalidCertificate => "ssl_invalid_certificate"
  | .connectionRefused => "connection_refused"
  | .connectionReset => "connection_reset"
  | .generic msg =>
    if containsSeq tlsHandshakeTimeoutMsg.data msg.data then "generic_timeout_error"
    else "unknown_failure: " ++ scrub msg

/-- The closed set of major operations privileged by attribution
precedence. -/
def majorOperation (op : String) : Bool :=
  op = "connect" || op = "http_round_trip" || op = "resolve" || op = "tls_handshake"

/-- Modelled from the spec: `toOperationString` keeps an existing major
attribution carried by an already-wrapped error and otherwise uses the
candidate operation supplied by the current wrapping layer. -/
def toOperationString (e : GoError) (operation : String) : String :=
  match e with
  | .wrapper _ op _ _ _ _ => if majorOperation op then op else operation
  | _ => operation

/-- Modelled from the spec (shape fixed by `errwrapper_test.go`): the
builder that `ErrorWrapperResolver` uses to wrap errors. -/
structure SafeErrWrapperBuilder where
  connID : Int := 0
  dialID : Int := 0
  error : Option GoError := none
  operation : String := ""
  transactionID : Int := 0

/-- Modelled from the spec: `MaybeBuild` returns `nil` for a `nil` error
and otherwise a fresh `ErrWrapper` recording the normalized failure
string, the attributed operation, the correlation ids and the wrapped
raw error. -/
def SafeErrWrapperBuilder.MaybeBuild (b : SafeErrWrapperBuilder) : Option GoError :=
  match b.error with
  | none => none
  | some e => some (.wrapper (toFailureString e) (toOperationString e b.operation)
      b.connID b.dialID b.transactionID e)

/-! ### The resolver decorator (from `src/unnamed/part_001`)

The wrapped resolver capability is modelled as a function from the
hostname to the addresses and optional error it produces; the dial and
transaction ids that `LookupHost` reads from the ambient context are
passed explicitly. -/

/-- `ErrorWrapperResolver.LookupHost`: invoke the underlying resolver,
then pass its error through `SafeErrWrapperBuilder.MaybeBuild` with
operation `resolve`, returning the addresses and the (possibly wrapped)
error. -/
def lookupHost (inner : String → List String × Option GoError)
    (dialID transactionID : Int) (hostname : String) :
    List String × Option GoError :=
  let res := inner hostname
  let err := SafeErrWrapperBuilder.MaybeBuild
    { dialID := dialID, error := res.2, operation := "resolve",
      transactionID := transactionID }
  (res.1, err)

/-! ### Archival serializer (from `src/netx/archival/archival.go`)

`trace.Event` is embedded with the fields the serializers read. Times are
modelled as integers; `t` is the difference `event.time - begin`. Errors
on events are modelled as the optional string `err.Error()` would return,
which is all the serializer observes through `makeFailure`. An
`http.Header` is an association list from keys to value lists in some
iteration order. -/

/-- The captured HTTP request of an `http_round_trip_done` event. -/
structure HTTPRequestData where
  header : List (String × List String) := []
  method : String := ""
  url : String := ""
deriving DecidableEq

/-- The captured HTTP response of an `http_round_trip_done` event. -/
structure HTTPResponseData where
  header : List (String × List String) := []
  statusCode : Int := 0
deriving DecidableEq

/-- A captured (possibly truncated) HTTP body. -/
structure BodyData where
  value : String := ""
  truncated : Bool := false
deriving DecidableEq

/-- `trace.Event`, restricted to the fields the archival serializer and
the trace claims read. -/
structure Event where
  name : String := ""
  time : Int := 0
  err : Option String := none
  address : String := ""
  proto : String := ""
  numBytes : Int := 0
  hostname : String := ""
  addresses : List String := []
  httpRequest : Option HTTPRequestData := none
  httpRequestBody : Option BodyData := none
  httpResponse : Option HTTPResponseData := none
  httpResponseBody : Option BodyData := none
  connID : Int := 0
  dialID : Int := 0
  transactionID : Int := 0
deriving DecidableEq

/-- `makeFailure`: a nil error yields a nil failure pointer, a non-nil
error yields a pointer to its `Error()` string. -/
def makeFailure : Option String → Option String
  | none => none
  | some e => some e

/-- `MaybeBinaryValue` as used by the in-memory archival structures. -/
structure MaybeBinaryValue where
  Value : String
deriving DecidableEq

/-- A single HTTP header pair. -/
structure HTTPHeader where
  Key : String
  Value : MaybeBinaryValue
deriving DecidableEq

/-- `HTTPHeadersList`: list representation of headers. -/
abbrev HTTPHeadersList := List HTTPHeader

/-- `HTTPHeaders`: the deprecated map representation, modelled as an
association list with Go-map insert semantics. -/
abbrev HTTPHeaders := List (String × MaybeBinaryValue)

/-- Go map assignment: overwrite the binding if the key is present,
otherwise add it. -/
def mapInsert (m : HTTPHeaders) (k : String) (v : MaybeBinaryValue) : HTTPHeaders :=
  match m with
  | [] => [(k, v)]
  | (k', v') :: rest => if k' = k then (k, v) :: rest else (k', v') :: mapInsert rest k v

/-- Go map lookup. -/
def mapLookup (m : HTTPHeaders) (k : String) : Option MaybeBinaryValue :=
  match m with
  | [] => none
  | (k', v') :: rest => if k' = k then some v' else mapLookup rest k

/-- The inner loop of `addheaders` over one key's value list, carrying
the `range` index: the map view is assigned only at index 0, the list
view receives every value. -/
def addvalues (key : String) :
    Nat → List String → HTTPHeadersList × HTTPHeaders → HTTPHeadersList × HTTPHeaders
  | _, [], acc => acc
  | index, value :: more, (destList, destMap) =>
    let destMap := if index = 0 then mapInsert destMap key ⟨value⟩ else destMap
    addvalues key (index + 1) more (destList ++ [⟨key, ⟨value⟩⟩], destMap)

/-- `addheaders`: fill the list view and the map view of a header
collection in one pass. -/
def addheaders :
    List (String × List String) → HTTPHeadersList × HTTPHeaders → HTTPHeadersList × HTTPHeaders
  | [], acc => acc
  | (key, values) :: rest, acc => addheaders rest (addvalues key 0 values acc)

/-- `HTTPRequest` of a request entry. -/
structure HTTPRequest where
  body : String := ""
  bodyIsTruncated : Bool := false
  headersList : HTTPHeadersList := []
  headers : HTTPHeaders := []
  method : String := ""
  url : String := ""
deriving DecidableEq

/-- `HTTPResponse` of a request entry. -/
structure HTTPResponse where
  body : String := ""
  bodyIsTruncated : Bool := false
  code : Int := 0
  headersList : HTTPHeadersList := []
  headers : HTTPHeaders := []
deriving DecidableEq

/-- `RequestEntry` of the "requests" list. -/
structure RequestEntry where
  failure : Option String := none
  request : HTTPRequest := {}
  response : HTTPResponse := {}
  t : Int := 0
  transactionID : Int := 0
deriving DecidableEq

/-- The body of `NewRequestList`'s loop for one `http_round_trip_done`
event. -/
def makeRequestEntry (begin : Int) (ev : Event) : RequestEntry :=
  let entry : RequestEntry := { t := ev.time - begin, failure := makeFailure ev.err }
  let entry :=
    match ev.httpRequest with
    | some req =>
      let hs := addheaders req.header ([], [])
      { entry with request :=
          { entry.request with
              headersList := hs.1, headers := hs.2,
              method := req.method, url := req.url } }
    | none => entry
  let entry :=
    match ev.httpRequestBody with
    | some b =>
      { entry with request :=
          { entry.request with body := b.value, bodyIsTruncated := b.truncated } }
    | none => entry
  let entry :=
    match ev.httpResponse with
    | some resp =>
      let hs := addheaders resp.header ([], [])
      { entry with response :=
          { entry.response with
              headersList := hs.1, headers := hs.2, code := resp.statusCode } }
    | none => entry
  let entry :=
    match ev.httpResponseBody with
    | some b =>
      { entry with response :=
          { entry.response with body := b.value, bodyIsTruncated := b.truncated } }
    | none => entry
  entry

/-- `NewRequestList`: walk the trace from the most recent event backwards
and emit one entry per `http_round_trip_done` event. -/
def NewRequestList (begin : Int) : List Event → List RequestEntry
  | [] => []
  | ev :: rest =>
    NewRequestList begin rest ++
      (if ev.name = "http_round_trip_done" then [makeRequestEntry begin ev] else [])

/-- `DNSAnswerEntry`. -/
structure DNSAnswerEntry where
  answerType : String := ""
  hostname : String := ""
  ipv4 : String := ""
  ipv6 : String := ""
  ttl : Option Nat := none
deriving DecidableEq

/-- `DNSQueryEntry`. -/
structure DNSQueryEntry where
  answers : List DNSAnswerEntry := []
  dialID : Int := 0
  engine : String := ""
  failure : Option String := none
  hostname : String := ""
  queryType : String := ""
  resolverAddress : String := ""
  t : Int := 0
  transactionID : Int := 0
deriving DecidableEq

/-- `strings.Contains(addr, ":")`, over the string's characters. -/
def containsChar (s : String) (c : Char) : Bool := s.data.contains c

/-- `dnsQueryType.ipoftype`: the colon heuristic classifying an address
string as belonging to an A or AAAA query. -/
def ipoftype (qtype : String) (addr : String) : Bool :=
  if qtype = "A" then containsChar addr ':' = false
  else if qtype = "AAAA" then containsChar addr ':' = true
  else false

/-- `dnsQueryType.makeanswerentry`. -/
def makeanswerentry (qtype : String) (addr : String) : DNSAnswerEntry :=
  let answer : DNSAnswerEntry := { answerType := qtype }
  if qtype = "A" then { answer with ipv4 := addr }
  else if qtype = "AAAA" then { answer with ipv6 := addr }
  else answer

/-- `dnsQueryType.makequeryentry`. -/
def makequeryentry (qtype : String) (begin : Int) (ev : Event) : DNSQueryEntry :=
  { engine := ev.proto
    failure := makeFailure ev.err
    hostname := ev.hostname
    queryType := qtype
    resolverAddress := ev.address
    t := ev.time - begin }

/-- The inner loop of `NewDNSQueriesList` for one `resolve_done` event:
one candidate entry per query type, kept only when it collected at least
one answer. -/
def dnsEntriesOf (begin : Int) (ev : Event) : List DNSQueryEntry :=
  (["A", "AAAA"] : List String).foldl
    (fun out qtype =>
      let entry := makequeryentry qtype begin ev
      let entry := { entry with
        answers := (ev.addresses.filter (fun a => ipoftype qtype a)).map
          (fun a => makeanswerentry qtype a) }
      if entry.answers.length ≤ 0 then out else out ++ [entry])
    []

/-- `NewDNSQueriesList`: walk the trace in order and synthesize query
entries for each `resolve_done` event. -/
def NewDNSQueriesList (begin : Int) : List Event → List DNSQueryEntry
  | [] => []
  | ev :: rest =>
    (if ev.name = "resolve_done" then dnsEntriesOf begin ev else []) ++
      NewDNSQueriesList begin rest

/-- `NetworkEvent`. -/
structure NetworkEvent where
  address : String := ""
  connID : Int := 0
  dialID : Int := 0
  failure : Option String := none
  numBytes : Int := 0
  operation : String := ""
  proto : String := ""
  t : Int := 0
  transactionID : Int := 0
deriving DecidableEq

/-- The entry `NewNetworkEventsList` builds for one event. -/
def toNetworkEvent (begin : Int) (ev : Event) : NetworkEvent :=
  if ev.name = "connect" then
    { address := ev.address, failure := makeFailure ev.err, operation := ev.name,
      proto := ev.proto, t := ev.time - begin }
  else if ev.name = "read" then
    { failure := makeFailure ev.err, operation := ev.name, numBytes := ev.numBytes,
      proto := ev.proto, t := ev.time - begin }
  else if ev.name = "write" then
    { failure := makeFailure ev.err, operation := ev.name, numBytes := ev.numBytes,
      proto := ev.proto, t := ev.time - begin }
  else
    { failure := makeFailure ev.err, operation := ev.name, t := ev.time - begin }

/-- `NewNetworkEventsList`: walk the trace in order; `connect`, `read`
and `write` events get dedicated entries and every other event falls
through to the untyped entry. -/
def NewNetworkEventsList (begin : Int) : List Event → List NetworkEvent
  | [] => []
  | ev :: rest =>
    if ev.name = "connect" then
      { address := ev.address, failure := makeFailure ev.err, operation := ev.name,
        proto := ev.proto, t := ev.time - begin } :: NewNetworkEventsList begin rest
    else if ev.name = "read" then
      { failure := makeFailure ev.err, operation := ev.name, numBytes := ev.numBytes,
        proto := ev.proto, t := ev.time - begin } :: NewNetworkEventsList begin rest
    else if ev.name = "write" then
      { failure := makeFailure ev.err, operation := ev.name, numBytes := ev.numBytes,
        proto := ev.proto, t := ev.time - begin } :: NewNetworkEventsList begin rest
    else
      { failure := makeFailure ev.err, operation := ev.name, t := ev.time - begin } ::
        NewNetworkEventsList begin rest

/-! ### Binary-safe JSON encoding (from `archival.go`, `MaybeBinaryValue`
and `HTTPHeader`)

Go strings are byte sequences, modelled as `List Nat` with every element
below 256. JSON documents are modelled as value trees: `encoding/json`'s
textual layer is a bijection on these trees, and the marshalling code
under verification manipulates only the tree structure. Go's
`json.Marshal` coerces string values to valid UTF-8, replacing invalid
byte sequences with the replacement rune; that coercion is modelled by
`sanitize`. -/

/-- A UTF-8 continuation byte. -/
def contByte (b : Nat) : Bool := 128 ≤ b && b ≤ 191

/-- The length (1 to 4) of the valid UTF-8 sequence at the head of the
input, or `none` when the head byte sequence is invalid (RFC 3629:
no overlong forms, no surrogates, at most U+10FFFF). -/
def utf8Len : List Nat → Option Nat
  | [] => none
  | b :: rest =>
    if b < 128 then some 1
    else if 194 ≤ b && b ≤ 223 then
      match rest with
      | c1 :: _ => if contByte c1 then some 2 else none
      | [] => none
    else if b = 224 then
      match rest with
      | c1 :: c2 :: _ => if (160 ≤ c1 && c1 ≤ 191) && contByte c2 then some 3 else none
      | _ => none
    else if (225 ≤ b && b ≤ 236) || b = 238 || b = 239 then
      match rest with
      | c1 :: c2 :: _ => if contByte c1 && contByte c2 then some 3 else none
      | _ => none
    else if b = 237 then
      match rest with
      | c1 :: c2 :: _ => if (128 ≤ c1 && c1 ≤ 159) && contByte c2 then some 3 else none
      | _ => none
    else if b = 240 then
      match rest with
      | c1 :: c2 :: c3 :: _ =>
        if (144 ≤ c1 && c1 ≤ 191) && contByte c2 && contByte c3 then some 4 else none
      | _ => none
    else if 241 ≤ b && b ≤ 243 then
      match rest with
      | c1 :: c2 :: c3 :: _ =>
        if contByte c1 && contByte c2 && contByte c3 then some 4 else none
      | _ => none
    else if b = 244 then
      match rest with
      | c1 :: c2 :: c3 :: _ =>
        if (128 ≤ c1 && c1 ≤ 143) && contByte c2 && contByte c3 then some 4 else none
      | _ => none
    else none

theorem utf8Len_bounds {l : List Nat} {n : Nat} (h : utf8Len l = some n) :
    1 ≤ n ∧ n ≤ l.length := by
  cases l with
  | nil => simp [utf8Len] at h
  | cons b rest =>
    simp only [utf8Len] at h
    split at h
    · cases h; simp
    · split at h
      · split at h
        · split at h
          · cases h; simp
          · cases h
        · cases h
      · split at h
        · split at h
          · split at h
            · cases h; simp
            · cases h
          · cases h
        · split at h
          · split at h
            · split at h
              · cases h; simp
              · cases h
            · cases h
          · split at h
            · split at h
              · split at h
                · cases h; simp
                · cases h
              · cases h
            · split at h
              · split at h
                · split at h
                  · cases h; simp
                  · cases h
                · cases h
              · split at h
                · split at h
                  · split at h
                    · cases h; simp
                    · cases h
                  · cases h
                · split at h
                  · split at h
                    · split at h
                      · cases h; simp
                      · cases h
                    · cases h
                  · cases h

/-- `utf8.ValidString`, with explicit fuel (instantiated with the input
length, which suffices because a valid sequence consumes at least one
byte). -/
def validFuel : Nat → List Nat → Bool
  | 0, l => l.isEmpty
  | _ + 1, [] => true
  | f + 1, b :: t =>
    match utf8Len (b :: t) with
    | some n => validFuel f ((b :: t).drop n)
    | none => false

/-- `utf8.ValidString` over a byte sequence. -/
def validUTF8 (l : List Nat) : Bool := validFuel l.length l

/-- Go's `json.Marshal` UTF-8 coercion: copy valid sequences, replace
each invalid byte with the replacement rune's encoding. -/
def sanitizeFuel : Nat → List Nat → List Nat
  | 0, l => l
  | _ + 1, [] => []
  | f + 1, b :: t =>
    match utf8Len (b :: t) with
    | some n => (b :: t).take n ++ sanitizeFuel f ((b :: t).drop n)
    | none => 239 :: 191 :: 189 :: sanitizeFuel f t

/-- The UTF-8 coercion applied by `json.Marshal` to a Go string. -/
def sanitize (l : List Nat) : List Nat := sanitizeFuel l.length l

/-- A byte sequence that is valid UTF-8 is left untouched by the
marshalling coercion. -/
theorem sanitize_of_valid : ∀ (f : Nat) (l : List Nat), l.length ≤ f →
    validFuel f l = true → sanitizeFuel f l = l := by
  intro f
  induction f with
  | zero =>
    intro l _ _
    rfl
  | succ f ih =>
    intro l hl hv
    cases l with
    | nil => rfl
    | cons b t =>
      simp only [validFuel] at hv
      simp only [sanitizeFuel]
      cases hn : utf8Len (b :: t) with
      | some n =>
        simp only [hn] at hv ⊢
        have hb := utf8Len_bounds hn
        simp only [List.length_cons] at hb hl
        rw [ih _ (by simp only [List.length_drop, List.length_cons]; omega) hv]
        exact List.take_append_drop n (b :: t)
      | none =>
        rw [hn] at hv
        exact Bool.noConfusion hv

theorem sanitize_valid {l : List Nat} (h : validUTF8 l = true) : sanitize l = l :=
  sanitize_of_valid l.length l (Nat.le_refl _) h

/-! ### Base64 (standard encoding with padding) -/

/-- The standard base64 alphabet, as a map from sextet to ASCII code. -/
def b64Char (n : Nat) : Nat :=
  if n < 26 then 65 + n
  else if n < 52 then 97 + (n - 26)
  else if n < 62 then 48 + (n - 52)
  else if n = 62 then 43
  else 47

/-- The inverse alphabet map, from ASCII code to sextet. -/
def b64Inv (c : Nat) : Option Nat :=
  if 65 ≤ c && c ≤ 90 then some (c - 65)
  else if 97 ≤ c && c ≤ 122 then some (26 + (c - 97))
  else if 48 ≤ c && c ≤ 57 then some (52 + (c - 48))
  else if c = 43 then some 62
  else if c = 47 then some 63
  else none

/-- `base64.StdEncoding.EncodeToString` over bytes, producing ASCII
codes; 61 is the pad character `=`. -/
def b64encode : List Nat → List Nat
  | [] => []
  | [b0] => [b64Char (b0 / 4), b64Char (b0 % 4 * 16), 61, 61]
  | [b0, b1] => [b64Char (b0 / 4), b64Char (b0 % 4 * 16 + b1 / 16), b64Char (b1 % 16 * 4), 61]
  | b0 :: b1 :: b2 :: rest =>
    b64Char (b0 / 4) :: b64Char (b0 % 4 * 16 + b1 / 16) ::
      b64Char (b1 % 16 * 4 + b2 / 64) :: b64Char (b2 % 64) :: b64encode rest

/-- `base64.StdEncoding.DecodeString`: quadruples of alphabet characters
with the padding forms allowed only at the end. -/
def b64decode : List Nat → Option (List Nat)
  | [] => some []
  | c0 :: c1 :: c2 :: c3 :: rest =>
    match b64Inv c0, b64Inv c1 with
    | some s0, some s1 =>
      if c2 = 61 then
        if c3 = 61 ∧ rest = [] then some [s0 * 4 + s1 / 16] else none
      else
        match b64Inv c2 with
        | some s2 =>
          if c3 = 61 then
            if rest = [] then some [s0 * 4 + s1 / 16, s1 % 16 * 16 + s2 / 4] else none
          else
            match b64Inv c3 with
            | some s3 =>
              (b64decode rest).map
                (fun tail => (s0 * 4 + s1 / 16) :: (s1 % 16 * 16 + s2 / 4) ::
                  (s2 % 4 * 64 + s3) :: tail)
            | none => none
        | none => none
    | _, _ => none
  | _ => none

theorem b64Inv_b64Char {s : Nat} (h : s < 64) : b64Inv (b64Char s) = some s := by
  interval_cases s <;> rfl

theorem b64Char_ne_pad {s : Nat} (h : s < 64) : b64Char s ≠ 61 := by
  interval_cases s <;> simp [b64Char]

/-- Decoding inverts encoding on every byte sequence. -/
theorem b64decode_b64encode : ∀ (l : List Nat), (∀ b ∈ l, b < 256) →
    b64decode (b64encode l) = some l := by
  intro l
  induction l using b64encode.induct with
  | case1 => intro _; rfl
  | case2 b0 =>
    intro hb
    have h0 : b0 < 256 := hb b0 (by simp)
    simp only [b64encode, b64decode,
      b64Inv_b64Char (show b0 / 4 < 64 by omega),
      b64Inv_b64Char (show b0 % 4 * 16 < 64 by omega)]
    simp only [if_true, and_self, Option.some.injEq, List.cons.injEq, and_true]
    omega
  | case3 b0 b1 =>
    intro hb
    have h0 : b0 < 256 := hb b0 (by simp)
    have h1 : b1 < 256 := hb b1 (by simp)
    simp only [b64encode, b64decode,
      b64Inv_b64Char (show b0 / 4 < 64 by omega),
      b64Inv_b64Char (show b0 % 4 * 16 + b1 / 16 < 64 by omega),
      b64Inv_b64Char (show b1 % 16 * 4 < 64 by omega),
      if_neg (b64Char_ne_pad (show b1 % 16 * 4 < 64 by omega))]
    simp only [if_true, and_self, Option.some.injEq, List.cons.injEq, and_true]
    omega
  | case4 b0 b1 b2 rest ih =>
    intro hb
    have h0 : b0 < 256 := hb b0 (by simp)
    have h1 : b1 < 256 := hb b1 (by simp)
    have h2 : b2 < 256 := hb b2 (by simp)
    simp only [b64encode, b64decode,
      b64Inv_b64Char (show b0 / 4 < 64 by omega),
      b64Inv_b64Char (show b0 % 4 * 16 + b1 / 16 < 64 by omega),
      b64Inv_b64Char (show b1 % 16 * 4 + b2 / 64 < 64 by omega),
      b64Inv_b64Char (show b2 % 64 < 64 by omega),
      if_neg (b64Char_ne_pad (show b1 % 16 * 4 + b2 / 64 < 64 by omega)),
      if_neg (b64Char_ne_pad (show b2 % 64 < 64 by omega))]
    rw [ih (fun b hmem => hb b (by simp [hmem]))]
    simp only [Option.map_some', Option.some.injEq, List.cons.injEq, and_true]
    refine ⟨by omega, by omega, by omega⟩

/-! ### JSON value trees and the two custom codecs -/

/-- A JSON value, restricted to the shapes the codecs traverse: strings
(byte sequences of the underlying text), arrays and objects. -/
inductive Json where
  | str (s : List Nat) : Json
  | arr (elems : List Json) : Json
  | obj (fields : List (List Nat × Json)) : Json

/-- The ASCII bytes of a literal. -/
def asciiStr (s : String) : List Nat := s.data.map Char.toNat

/-- View a JSON value as a Go string, as `interface{}` type assertion and
`map[string]string` decoding do. -/
def asString : Json → Option (List Nat)
  | .str s => some s
  | _ => none

/-- Go-map field lookup over decoded JSON object fields: a duplicate key
keeps the last occurrence, as repeated map assignment would. -/
def lookupField (fields : List (List Nat × Json)) (key : List Nat) : Option Json :=
  match fields with
  | [] => none
  | (k, v) :: rest =>
    match lookupField rest key with
    | some v' => some v'
    | none => if k = key then some v else none

/-- `MaybeBinaryValue.MarshalJSON`: valid UTF-8 marshals as a JSON string
(coerced by `json.Marshal`), anything else as the base64 marker object
(Go marshals map keys in sorted order: `data` before `format`). -/
def marshalMBV (v : List Nat) : Json :=
  if validUTF8 v then .str (sanitize v)
  else .obj [(asciiStr "data", .str (b64encode v)),
             (asciiStr "format", .str (asciiStr "base64"))]

/-- `MaybeBinaryValue.UnmarshalJSON`: try the plain-string form first,
then the marker-object form decoded as a `map[string]string`. -/
def unmarshalMBV (j : Json) : Except String (List Nat) :=
  match j with
  | .str s => .ok s
  | .obj fields =>
    if fields.all (fun kv => (asString kv.2).isSome) then
      match lookupField fields (asciiStr "format") with
      | none => .error "missing or invalid format field"
      | some fv =>
        if asString fv = some (asciiStr "base64") then
          match lookupField fields (asciiStr "data") with
          | none => .error "missing data field"
          | some dv =>
            match asString dv with
            | some ds =>
              match b64decode ds with
              | some bytes => .ok bytes
              | none => .error "illegal base64 data"
            | none => .error "the data field is not a string"
        else .error "missing or invalid format field"
    else .error "json: cannot unmarshal into map of strings"
  | .arr _ => .error "json: cannot unmarshal array"

/-- `HTTPHeader.MarshalJSON`: a two-element array holding the key and
either the plain value or the base64 marker object. -/
def marshalHeader (key value : List Nat) : Json :=
  if validUTF8 value then .arr [.str (sanitize key), .str (sanitize value)]
  else .arr [.str (sanitize key),
             .obj [(asciiStr "data", .str (b64encode value)),
                   (asciiStr "format", .str (asciiStr "base64"))]]

/-- `HTTPHeader.UnmarshalJSON`: decode the pair, accepting a string or a
well-formed base64 marker object as the value. -/
def unmarshalHeader (j : Json) : Except String (List Nat × List Nat) :=
  match j with
  | .arr pair =>
    match pair with
    | [j0, j1] =>
      match j0 with
      | .str key =>
        match j1 with
        | .str value => .ok (key, value)
        | .obj mapvalue =>
          match lookupField mapvalue (asciiStr "format") with
          | none => .error "missing format"
          | some fv =>
            if asString fv = some (asciiStr "base64") then
              match lookupField mapvalue (asciiStr "data") with
              | none => .error "missing data field"
              | some dv =>
                match asString dv with
                | some ds =>
                  match b64decode ds with
                  | some b => .ok (key, b)
                  | none => .error "illegal base64 data"
                | none => .error "the data field is not a string"
            else .error "invalid format"
        | .arr _ => .error "the value is neither a string nor a map"
      | _ => .error "the key is not a string"
    | _ => .error "unexpected pair length"
  | _ => .error "json: cannot unmarshal into a pair"

/-! ### The event trace under concurrent append

The trace implementation is not under the provided sources. Modelled from
the spec (§3, §5): appends from concurrent tasks are serialized (each
append is atomic), so a run of N tasks produces some interleaving of the
per-task append sequences. `Merge tasks out` states that `out` is such an
interleaving. -/

/-- Modelled from the spec: `Merge tasks out` holds when `out` is an
order-preserving interleaving of the per-task event sequences. -/
inductive Merge : List (List Event) → List Event → Prop where
  | done (tss : List (List Event)) (h : ∀ ts ∈ tss, ts = []) : Merge tss []
  | step (tss : List (List Event)) (i : Nat) (e : Event) (rest : List Event)
      (out : List Event) (hget : tss.get? i = some (e :: rest))
      (hmerge : Merge (tss.set i rest) out) : Merge tss (e :: out)

theorem get?_decompose {α : Type} {tss : List α} {i : Nat} {x : α}
    (h : tss.get? i = some x) :
    ∃ A B, tss = A ++ x :: B ∧ A.length = i ∧ ∀ y, tss.set i y = A ++ y :: B := by
  induction tss generalizing i with
  | nil => simp at h
  | cons hd tl ih =>
    cases i with
    | zero =>
      simp only [List.get?] at h
      cases h
      exact ⟨[], tl, rfl, rfl, fun y => rfl⟩
    | succ i =>
      simp only [List.get?] at h
      obtain ⟨A, B, rfl, hlen, hset⟩ := ih h
      refine ⟨hd :: A, B, rfl, by simp [hlen], fun y => ?_⟩
      simp [List.set, hset y]

/-- A merged trace is a permutation of the concatenation of the tasks:
no entry is lost and none is duplicated. -/
theorem merge_perm {tasks : List (List Event)} {out : List Event}
    (h : Merge tasks out) : out.Perm tasks.join := by
  induction h with
  | done tss hall =>
    have : tss.join = [] := by
      rw [List.join_eq_nil_iff]
      exact hall
    rw [this]
  | step tss i e rest out hget hmerge ih =>
    obtain ⟨A, B, rfl, _, hset⟩ := get?_decompose hget
    rw [hset rest] at ih
    refine (ih.cons e).trans ?_
    have h1 : (A ++ rest :: B).join = A.join ++ (rest ++ B.join) := by simp
    have h2 : (A ++ (e :: rest) :: B).join = A.join ++ e :: (rest ++ B.join) := by simp
    rw [h1, h2]
    exact List.perm_middle.symm

theorem get?_append_mid {α : Type} (A : List α) (y : α) (B : List α) :
    (A ++ y :: B).get? A.length = some y := by
  induction A with
  | nil => rfl
  | cons a A ih =>
    simp only [List.cons_append, List.length_cons, List.get?]
    exact ih

/-- Order within one task is preserved: every task's sequence is a
sublist of the merged trace. -/
theorem merge_sublist {tasks : List (List Event)} {out : List Event}
    (h : Merge tasks out) :
    ∀ j ts, tasks.get? j = some ts → ts.Sublist out := by
  induction h with
  | done tss hall =>
    intro j ts hj
    have := hall ts (List.get?_mem hj)
    simp [this]
  | step tss i e rest out hget hmerge ih =>
    intro j ts hj
    by_cases hij : j = i
    · subst hij
      rw [hj] at hget
      cases hget
      obtain ⟨A, B, htss, hlen, hset⟩ := get?_decompose hj
      have hg : (tss.set j rest).get? j = some rest := by
        rw [hset rest, ← hlen]
        exact get?_append_mid A rest B
      exact (ih j rest hg).cons₂ e
    · have hg : (tss.set i rest).get? j = some ts := by
        obtain ⟨A, B, htss, hlen, hset⟩ := get?_decompose hget
        rw [hset rest]
        rw [htss] at hj
        subst hlen
        rcases Nat.lt_or_ge j A.length with hlt | hge
        · rw [List.get?_append hlt] at hj ⊢
          exact hj
        · have hgt : A.length < j := by
            rcases Nat.eq_or_lt_of_le hge with heq | hlt2
            · exact absurd heq.symm hij
            · exact hlt2
          have e1 : (A ++ (e :: rest) :: B).get? j = B.get? (j - A.length - 1) := by
            rw [List.get?_append_right (by omega)]
            have hsub : j - A.length = (j - A.length - 1) + 1 := by omega
            rw [hsub]
            rfl
          have e2 : (A ++ rest :: B).get? j = B.get? (j - A.length - 1) := by
            rw [List.get?_append_right (by omega)]
            have hsub : j - A.length = (j - A.length - 1) + 1 := by omega
            rw [hsub]
            rfl
          rw [e1] at hj
          rw [e2]
          exact hj
      exact (ih j ts hg).cons e

/-! ### Claims -/

/-- The decomposition of the test message from the spec's example into
text and address segments. -/
def exampleChunks : List Chunk :=
  [.text "read tcp ", .addr "10.0.2.15:56948", .text "->",
   .addr "93.184.216.34:443", .text ": use of closed network connection"]

/-- Claim C1: on every message decomposable into text segments and
IPv4/IPv6 address occurrences (with their attached ports), the scrubber
replaces every address occurrence with the fixed placeholder and keeps
every other character verbatim; and the normalizer's fallback maps the
example raw error to the expected scrubbed failure string. -/
theorem claim_C1 (ps : List Chunk) (h : chunksWF ps = true) :
    scrubChars (renderChunks ps) = renderScrubbed ps ∧
    toFailureString (.generic
        "read tcp 10.0.2.15:56948->93.184.216.34:443: use of closed network connection") =
      "unknown_failure: read tcp [scrubbed]->[scrubbed]: use of closed network connection" :=
  ⟨scrubChars_chunks h, by decide⟩

/-- Witness for C1: the example input decomposes into well-formed
segments, and scrubbing it yields exactly the expected output. -/
theorem claim_C1_witness :
    chunksWF exampleChunks = true ∧
    scrubChars (renderChunks exampleChunks) = renderScrubbed exampleChunks ∧
    renderChunks exampleChunks =
      "read tcp 10.0.2.15:56948->93.184.216.34:443: use of closed network connection".data ∧
    renderScrubbed exampleChunks =
      "read tcp [scrubbed]->[scrubbed]: use of closed network connection".data :=
  ⟨by decide, (claim_C1 exampleChunks (by decide)).1, by decide, by decide⟩

/-- The underlying resolver used for C2: it produces an address list and
a raw EOF error. -/
def innerEOF : String → List String × Option GoError :=
  fun _ => (["93.184.216.34"], some .eofError)

/-- Claim C2 counterexample: `LookupHost` does not return the underlying
error value unmodified — for an underlying EOF error it returns a fresh
`ErrWrapper` (with the normalized failure string) in its place. -/
theorem claim_C2_counterexample :
    (lookupHost innerEOF 7 9 "example.com").2 ≠ (innerEOF "example.com").2 ∧
    (lookupHost innerEOF 7 9 "example.com").2 =
      some (.wrapper "eof_error" "resolve" 0 7 9 .eofError) := by
  exact ⟨by decide, rfl⟩

/-- Claim C2 (amended): the wrapper returns the addresses unchanged and
never suppresses the error — a nil error stays nil, and a non-nil error
is returned wrapped in an `ErrWrapper` whose `WrappedErr` is exactly the
underlying error value. -/
theorem claim_C2_amended (inner : String → List String × Option GoError)
    (dialID transactionID : Int) (hostname : String) :
    (lookupHost inner dialID transactionID hostname).1 = (inner hostname).1 ∧
    ((lookupHost inner dialID transactionID hostname).2 = none ↔
      (inner hostname).2 = none) ∧
    ∀ e, (inner hostname).2 = some e →
      (lookupHost inner dialID transactionID hostname).2 =
        some (.wrapper (toFailureString e) (toOperationString e "resolve")
          0 dialID transactionID e) := by
  refine ⟨rfl, ?_, ?_⟩
  · cases h : (inner hostname).2 <;>
      simp [lookupHost, SafeErrWrapperBuilder.MaybeBuild, h]
  · intro e he
    simp [lookupHost, SafeErrWrapperBuilder.MaybeBuild, he]

/-- Witness for C2 (amended): at the concrete failing resolver the
returned error wraps exactly the raw EOF error. -/
theorem claim_C2_witness :
    (innerEOF "example.com").2 = some GoError.eofError ∧
    (lookupHost innerEOF 7 9 "example.com").2 =
      some (.wrapper (toFailureString .eofError) (toOperationString .eofError "resolve")
        0 7 9 .eofError) :=
  ⟨rfl, (claim_C2_amended innerEOF 7 9 "example.com").2.2 GoError.eofError rfl⟩

/-- Claim C3: an existing major attribution (connect, resolve,
tls_handshake, http_round_trip) carried by a wrapped error is kept
regardless of the candidate, a non-major attribution is replaced by the
candidate; in particular connect beats candidate http_round_trip and
read loses to candidate tls_handshake. -/
theorem claim_C3 (failure op : String) (cid did tid : Int) (we : GoError)
    (candidate : String) :
    (majorOperation op = true →
      toOperationString (.wrapper failure op cid did tid we) candidate = op) ∧
    (majorOperation op = false →
      toOperationString (.wrapper failure op cid did tid we) candidate = candidate) ∧
    toOperationString (.wrapper failure "connect" cid did tid we) "http_round_trip" =
      "connect" ∧
    toOperationString (.wrapper failure "read" cid did tid we) "tls_handshake" =
      "tls_handshake" := by
  refine ⟨?_, ?_, rfl, rfl⟩
  · intro h
    simp [toOperationString, h]
  · intro h
    simp [toOperationString, h]

/-- Witness for C3: attribution `connect` with candidate
`http_round_trip` stays `connect`. -/
theorem claim_C3_witness :
    majorOperation "connect" = true ∧
    toOperationString (.wrapper "f" "connect" 0 0 0 .eofError) "http_round_trip" =
      "connect" :=
  ⟨by decide, (claim_C3 "f" "connect" 0 0 0 .eofError "http_round_trip").1 (by decide)⟩

theorem asciiStr_format_ne_data : asciiStr "format" ≠ asciiStr "data" := by decide

/-- Claim C4 counterexample: the header-pair round trip fails for a key
that is not valid UTF-8 — `json.Marshal` coerces the key's invalid byte
to the replacement rune, so decoding does not restore the original key
bytes. -/
theorem claim_C4_counterexample :
    unmarshalHeader (marshalHeader [255] []) = .ok ([239, 191, 189], []) ∧
    ([255] : List Nat) ≠ [239, 191, 189] :=
  ⟨rfl, by decide⟩

/-- Claim C4 (amended): for every byte sequence `b` the binary-safe value
round trip restores `b` exactly, whether or not `b` is valid UTF-8; the
header-pair round trip restores the value bytes for every value and the
key whenever the key is valid UTF-8 (an invalid key is coerced by the
JSON string encoder and is not restored). -/
theorem claim_C4_amended (v k : List Nat) (hv : ∀ b ∈ v, b < 256)
    (hk : validUTF8 k = true) :
    unmarshalMBV (marshalMBV v) = .ok v ∧
    unmarshalHeader (marshalHeader k v) = .ok (k, v) := by
  have hb64 := b64decode_b64encode v hv
  by_cases hval : validUTF8 v
  · constructor
    · simp [marshalMBV, hval, unmarshalMBV, sanitize_valid hval]
    · simp [marshalHeader, hval, unmarshalHeader, sanitize_valid hval,
        sanitize_valid hk]
  · constructor
    · simp [marshalMBV, hval, unmarshalMBV, lookupField, asString,
        asciiStr_format_ne_data, hb64]
    · simp only [marshalHeader, hval, Bool.false_eq_true, if_false, unmarshalHeader,
        sanitize_valid hk]
      simp [lookupField, asciiStr_format_ne_data, asString, hb64]

/-- Witness for C4 (amended): a non-UTF-8 value round-trips through the
base64 marker object, both alone and inside a header pair with a valid
key. -/
theorem claim_C4_witness :
    (∀ b ∈ ([104, 105, 255] : List Nat), b < 256) ∧
    validUTF8 [104, 105] = true ∧
    unmarshalMBV (marshalMBV [104, 105, 255]) = .ok [104, 105, 255] ∧
    unmarshalHeader (marshalHeader [104, 105] [104, 105, 255]) =
      .ok ([104, 105], [104, 105, 255]) := by
  have h := claim_C4_amended [104, 105, 255] [104, 105] (by decide) (by decide)
  exact ⟨by decide, by decide, h.1, h.2⟩

/-! ### Header views (claim C5) -/

/-- The header pairs contributed to the list view by one key. -/
def pairsOf (key : String) (values : List String) : HTTPHeadersList :=
  values.map (fun v => ⟨key, ⟨v⟩⟩)

theorem addvalues_of_pos (key : String) :
    ∀ (values : List String) (i : Nat) (dl : HTTPHeadersList) (dm : HTTPHeaders),
    i ≠ 0 → addvalues key i values (dl, dm) = (dl ++ pairsOf key values, dm) := by
  intro values
  induction values with
  | nil => intro i dl dm _; simp [addvalues, pairsOf]
  | cons v more ih =>
    intro i dl dm hi
    simp only [addvalues, if_neg hi, pairsOf]
    rw [ih (i + 1) _ _ (by omega)]
    simp [pairsOf]

theorem addvalues_zero (key : String) (values : List String)
    (dl : HTTPHeadersList) (dm : HTTPHeaders) :
    addvalues key 0 values (dl, dm) =
      (dl ++ pairsOf key values,
       match values with
       | [] => dm
       | v :: _ => mapInsert dm key ⟨v⟩) := by
  cases values with
  | nil => simp [addvalues, pairsOf]
  | cons v more =>
    simp only [addvalues, if_pos rfl]
    rw [addvalues_of_pos key more 1 _ _ (by omega)]
    simp [pairsOf]

/-- The map-view fold that `addheaders` performs: each key's first value
(if any) is assigned into the Go map. -/
def mapViewStep (dm : HTTPHeaders) (kv : String × List String) : HTTPHeaders :=
  match kv.2 with
  | [] => dm
  | v :: _ => mapInsert dm kv.1 ⟨v⟩

theorem addheaders_characterization :
    ∀ (source : List (String × List String)) (dl : HTTPHeadersList) (dm : HTTPHeaders),
    addheaders source (dl, dm) =
      (dl ++ source.flatMap (fun kv => pairsOf kv.1 kv.2),
       source.foldl mapViewStep dm) := by
  intro source
  induction source with
  | nil => intro dl dm; simp [addheaders]
  | cons kv rest ih =>
    intro dl dm
    obtain ⟨key, values⟩ := kv
    simp only [addheaders]
    rw [addvalues_zero]
    rw [ih]
    simp [mapViewStep, List.append_assoc]

theorem mapLookup_mapInsert_self (m : HTTPHeaders) (k : String) (v : MaybeBinaryValue) :
    mapLookup (mapInsert m k v) k = some v := by
  induction m with
  | nil => simp [mapInsert, mapLookup]
  | cons kv rest ih =>
    obtain ⟨k', v'⟩ := kv
    simp only [mapInsert]
    by_cases h : k' = k
    · simp [h, mapLookup]
    · simp [h, mapLookup, ih]

theorem mapLookup_mapInsert_ne (m : HTTPHeaders) (k k' : String) (v : MaybeBinaryValue)
    (h : k' ≠ k) : mapLookup (mapInsert m k' v) k = mapLookup m k := by
  induction m with
  | nil => simp [mapInsert, mapLookup, h]
  | cons kv rest ih =>
    obtain ⟨k0, v0⟩ := kv
    simp only [mapInsert]
    by_cases h0 : k0 = k'
    · subst h0
      simp [mapLookup, h]
    · simp only [if_neg h0, mapLookup]
      by_cases h1 : k0 = k
      · simp [h1]
      · simp [h1, ih]

theorem mapLookup_foldl_not_mem :
    ∀ (source : List (String × List String)) (dm : HTTPHeaders) (k : String),
    k ∉ source.map Prod.fst →
    mapLookup (source.foldl mapViewStep dm) k = mapLookup dm k := by
  intro source
  induction source with
  | nil => intro dm k _; rfl
  | cons kv rest ih =>
    intro dm k hk
    simp only [List.map_cons, List.mem_cons, not_or] at hk
    simp only [List.foldl_cons]
    rw [ih _ _ hk.2]
    obtain ⟨key, values⟩ := kv
    simp only [mapViewStep]
    cases values with
    | nil => rfl
    | cons v more =>
      exact mapLookup_mapInsert_ne dm k key ⟨v⟩ (fun he => hk.1 he.symm)

theorem mapLookup_foldl_mem :
    ∀ (source : List (String × List String)) (dm : HTTPHeaders) (k : String)
      (vs : List String),
    (source.map Prod.fst).Nodup → (k, vs) ∈ source → mapLookup dm k = none →
    mapLookup (source.foldl mapViewStep dm) k =
      vs.head?.map (fun v => ⟨v⟩) := by
  intro source
  induction source with
  | nil => intro dm k vs _ hmem _; simp at hmem
  | cons kv rest ih =>
    intro dm k vs hnd hmem hdm
    simp only [List.map_cons, List.nodup_cons] at hnd
    rcases List.mem_cons.mp hmem with heq | hmem'
    · cases heq
      simp only [List.foldl_cons]
      have hnot : k ∉ rest.map Prod.fst := by
        simpa using hnd.1
      rw [mapLookup_foldl_not_mem rest _ k hnot]
      cases vs with
      | nil => simpa [mapViewStep] using hdm
      | cons v more => simp [mapViewStep, mapLookup_mapInsert_self]
    · simp only [List.foldl_cons]
      have hkne : kv.1 ≠ k := by
        intro he
        apply hnd.1
        rw [he]
        exact List.mem_map_of_mem Prod.fst hmem'
      refine ih _ k vs hnd.2 hmem' ?_
      obtain ⟨key, values⟩ := kv
      simp only [mapViewStep]
      cases values with
      | nil => exact hdm
      | cons v more =>
        rw [mapLookup_mapInsert_ne dm k key ⟨v⟩ hkne]
        exact hdm

/-- Claim C5 counterexample: for the header collection with one key `K`
carrying values `a` then `b`, the map view binds `K` to the *first*
value `a`, not to the last value `b` as the claim states. -/
theorem claim_C5_counterexample :
    mapLookup (addheaders [("K", ["a", "b"])] ([], [])).2 "K" =
      some (MaybeBinaryValue.mk "a") ∧
    some (MaybeBinaryValue.mk "a") ≠ some (MaybeBinaryValue.mk "b") :=
  ⟨rfl, by decide⟩

/-- Claim C5 (amended): for every header collection with distinct keys,
the list view contains one independent pair per value of every key in
order, and the map view binds each key to the *first* value of that
key's value list (keys with an empty value list are absent). -/
theorem claim_C5_amended (source : List (String × List String))
    (hnd : (source.map Prod.fst).Nodup) :
    (addheaders source ([], [])).1 =
      source.flatMap (fun kv => kv.2.map (fun v => ⟨kv.1, ⟨v⟩⟩)) ∧
    ∀ k vs, (k, vs) ∈ source →
      mapLookup (addheaders source ([], [])).2 k =
        vs.head?.map (fun v => ⟨v⟩) := by
  constructor
  · rw [addheaders_characterization]
    simp [pairsOf]
  · intro k vs hmem
    rw [addheaders_characterization]
    exact mapLookup_foldl_mem source [] k vs hnd hmem rfl

/-- Witness for C5 (amended): a two-key collection with a two-valued
key; the list view lists all three pairs and the map view holds first
values. -/
theorem claim_C5_witness :
    ((([("K", ["a", "b"]), ("L", ["c"])] : List (String × List String)).map
      Prod.fst).Nodup) ∧
    (addheaders [("K", ["a", "b"]), ("L", ["c"])] ([], [])).1 =
      [⟨"K", ⟨"a"⟩⟩, ⟨"K", ⟨"b"⟩⟩, ⟨"L", ⟨"c"⟩⟩] ∧
    mapLookup (addheaders [("K", ["a", "b"]), ("L", ["c"])] ([], [])).2 "K" =
      some ⟨"a"⟩ := by
  have h := claim_C5_amended [("K", ["a", "b"]), ("L", ["c"])] (by decide)
  refine ⟨by decide, ?_, ?_⟩
  · rw [h.1]
    rfl
  · have hk := h.2 "K" ["a", "b"] (by simp)
    simpa using hk

/-! ### Requests list (claim C6) -/

/-- Claim C6: the requests list has exactly one entry per
`http_round_trip_done` event, in reverse trace order; in particular two
round-trip events appended as R1 then R2 serialize as [R2, R1]. -/
theorem claim_C6 (begin : Int) (events : List Event) :
    NewRequestList begin events =
      ((events.filter (fun ev => ev.name = "http_round_trip_done")).map
        (makeRequestEntry begin)).reverse ∧
    (NewRequestList begin events).length =
      (events.filter (fun ev => ev.name = "http_round_trip_done")).length ∧
    ∀ r1 r2 : Event, r1.name = "http_round_trip_done" →
      r2.name = "http_round_trip_done" →
      NewRequestList begin [r1, r2] =
        [makeRequestEntry begin r2, makeRequestEntry begin r1] := by
  have hmain : ∀ evs : List Event, NewRequestList begin evs =
      ((evs.filter (fun ev => ev.name = "http_round_trip_done")).map
        (makeRequestEntry begin)).reverse := by
    intro evs
    induction evs with
    | nil => rfl
    | cons ev rest ih =>
      simp only [NewRequestList, List.filter_cons]
      by_cases h : ev.name = "http_round_trip_done"
      · simp [h, ih]
      · simp [h, ih]
  refine ⟨hmain events, ?_, ?_⟩
  · rw [hmain events]
    simp
  · intro r1 r2 h1 h2
    rw [hmain [r1, r2]]
    simp [List.filter, h1, h2]

/-- Witness for C6: two concrete round-trip events serialize most recent
first. -/
theorem claim_C6_witness :
    (Event.mk "http_round_trip_done" 1 none "" "" 0 "" [] none none none none 0 0 0).name
      = "http_round_trip_done" ∧
    NewRequestList 0
        [{ name := "http_round_trip_done", time := 1 },
         { name := "http_round_trip_done", time := 2 }] =
      [makeRequestEntry 0 { name := "http_round_trip_done", time := 2 },
       makeRequestEntry 0 { name := "http_round_trip_done", time := 1 }] :=
  ⟨rfl, (claim_C6 0 []).2.2
    { name := "http_round_trip_done", time := 1 }
    { name := "http_round_trip_done", time := 2 } rfl rfl⟩

/-! ### DNS queries list (claims C7 and C9) -/

/-- The A-type entry a `resolve_done` event would produce. -/
def dnsAEntry (begin : Int) (ev : Event) : DNSQueryEntry :=
  { makequeryentry "A" begin ev with
    answers := (ev.addresses.filter (fun a => ipoftype "A" a)).map
      (fun a => makeanswerentry "A" a) }

/-- The AAAA-type entry a `resolve_done` event would produce. -/
def dnsAAAAEntry (begin : Int) (ev : Event) : DNSQueryEntry :=
  { makequeryentry "AAAA" begin ev with
    answers := (ev.addresses.filter (fun a => ipoftype "AAAA" a)).map
      (fun a => makeanswerentry "AAAA" a) }

theorem ipoftypeA_colon :
    (fun a => ipoftype "A" a) = (fun a : String => decide (containsChar a ':' = false)) := by
  funext a
  simp [ipoftype]

theorem ipoftypeAAAA_colon :
    (fun a => ipoftype "AAAA" a) = (fun a : String => decide (containsChar a ':' = true)) := by
  funext a
  simp [ipoftype]

theorem dnsEntriesOf_characterization (begin : Int) (ev : Event) :
    dnsEntriesOf begin ev =
      (if (ev.addresses.filter (fun a => ipoftype "A" a)) = [] then []
       else [dnsAEntry begin ev]) ++
      (if (ev.addresses.filter (fun a => ipoftype "AAAA" a)) = [] then []
       else [dnsAAAAEntry begin ev]) := by
  simp only [dnsEntriesOf, List.foldl_cons, List.foldl_nil, Nat.le_zero,
    List.length_map, List.length_eq_zero]
  by_cases h1 : (ev.addresses.filter (fun a => ipoftype "A" a)) = []
  · by_cases h2 : (ev.addresses.filter (fun a => ipoftype "AAAA" a)) = [] <;>
      simp [h1, h2, dnsAEntry, dnsAAAAEntry]
  · by_cases h2 : (ev.addresses.filter (fun a => ipoftype "AAAA" a)) = [] <;>
      simp [h1, h2, dnsAEntry, dnsAAAAEntry]

/-- Claim C7: for a `resolve_done` event the serializer emits at most two
entries — an A entry collecting exactly the colon-free addresses and an
AAAA entry collecting exactly the colon-containing ones — each emitted
only when non-empty, and all carry the same `t`; the whole list is the
per-event concatenation. -/
theorem claim_C7 (begin : Int) (ev : Event) (h : ev.name = "resolve_done")
    (events : List Event) :
    NewDNSQueriesList begin [ev] =
      (if (ev.addresses.filter (fun a => containsChar a ':' = false)) = [] then []
       else [dnsAEntry begin ev]) ++
      (if (ev.addresses.filter (fun a => containsChar a ':' = true)) = [] then []
       else [dnsAAAAEntry begin ev]) ∧
    (dnsAEntry begin ev).answers =
      (ev.addresses.filter (fun a => containsChar a ':' = false)).map
        (fun a => makeanswerentry "A" a) ∧
    (dnsAAAAEntry begin ev).answers =
      (ev.addresses.filter (fun a => containsChar a ':' = true)).map
        (fun a => makeanswerentry "AAAA" a) ∧
    (NewDNSQueriesList begin [ev]).length ≤ 2 ∧
    (∀ q ∈ NewDNSQueriesList begin [ev], q.t = ev.time - begin) ∧
    NewDNSQueriesList begin events =
      events.flatMap
        (fun e => if e.name = "resolve_done" then dnsEntriesOf begin e else []) := by
  have hflat : ∀ evs : List Event, NewDNSQueriesList begin evs =
      evs.flatMap
        (fun e => if e.name = "resolve_done" then dnsEntriesOf begin e else []) := by
    intro evs
    induction evs with
    | nil => rfl
    | cons e rest ih => simp [NewDNSQueriesList, ih]
  have hone : NewDNSQueriesList begin [ev] = dnsEntriesOf begin ev := by
    simp [NewDNSQueriesList, h]
  refine ⟨?_, ?_, ?_, ?_, ?_, hflat events⟩
  · rw [hone, dnsEntriesOf_characterization, ipoftypeA_colon, ipoftypeAAAA_colon]
  · rw [dnsAEntry, ipoftypeA_colon]
  · rw [dnsAAAAEntry, ipoftypeAAAA_colon]
  · rw [hone, dnsEntriesOf_characterization]
    split <;> split <;> simp
  · intro q hq
    rw [hone, dnsEntriesOf_characterization] at hq
    rcases List.mem_append.mp hq with hql | hqr
    · split at hql
      · simp at hql
      · simp only [List.mem_singleton] at hql
        subst hql
        rfl
    · split at hqr
      · simp at hqr
      · simp only [List.mem_singleton] at hqr
        subst hqr
        rfl

/-- The example `resolve_done` event from the spec's testable property. -/
def exampleResolveEvent : Event :=
  { name := "resolve_done", time := 4, proto := "system",
    hostname := "www.example.com",
    addresses := ["93.184.216.34", "2606:2800:220:1:248:1893:25c8:1946"] }

/-- Witness for C7: the example address pair yields exactly one A entry
with the IPv4 answer and one AAAA entry with the IPv6 answer, both with
the same `t`. -/
theorem claim_C7_witness :
    exampleResolveEvent.name = "resolve_done" ∧
    NewDNSQueriesList 0 [exampleResolveEvent] =
      [dnsAEntry 0 exampleResolveEvent, dnsAAAAEntry 0 exampleResolveEvent] ∧
    (dnsAEntry 0 exampleResolveEvent).answers =
      [{ answerType := "A", ipv4 := "93.184.216.34" }] ∧
    (dnsAAAAEntry 0 exampleResolveEvent).answers =
      [{ answerType := "AAAA", ipv6 := "2606:2800:220:1:248:1893:25c8:1946" }] ∧
    (dnsAEntry 0 exampleResolveEvent).t = (dnsAAAAEntry 0 exampleResolveEvent).t := by
  have h := claim_C7 0 exampleResolveEvent rfl []
  refine ⟨rfl, ?_, by decide, by decide, by decide⟩
  rw [h.1]
  rfl

/-- Claim C9: a `resolve_done` event whose address list is empty
contributes no query entry at all, wherever it sits in the trace. -/
theorem claim_C9 (begin : Int) (ev : Event) (pre post : List Event)
    (h : ev.name = "resolve_done") (ha : ev.addresses = []) :
    NewDNSQueriesList begin [ev] = [] ∧
    NewDNSQueriesList begin (pre ++ ev :: post) =
      NewDNSQueriesList begin pre ++ NewDNSQueriesList begin post := by
  have happ : ∀ xs ys : List Event, NewDNSQueriesList begin (xs ++ ys) =
      NewDNSQueriesList begin xs ++ NewDNSQueriesList begin ys := by
    intro xs ys
    induction xs with
    | nil => rfl
    | cons x rest ih => simp [NewDNSQueriesList, ih]
  have hempty : dnsEntriesOf begin ev = [] := by
    rw [dnsEntriesOf_characterization]
    simp [ha]
  constructor
  · simp [NewDNSQueriesList, h, hempty]
  · rw [happ]
    have : NewDNSQueriesList begin (ev :: post) = NewDNSQueriesList begin post := by
      simp [NewDNSQueriesList, h, hempty]
    rw [this]

/-- Witness for C9: a failed resolution with no addresses, surrounded by
two other resolutions, leaves no trace of its failure in the queries
list. -/
theorem claim_C9_witness :
    (Event.mk "resolve_done" 3 (some "dns_nxdomain_error") "" "" 0 "x.org" []
      none none none none 0 0 0).addresses = [] ∧
    NewDNSQueriesList 0
        ([exampleResolveEvent] ++
          { name := "resolve_done", time := 3, err := some "dns_nxdomain_error",
            hostname := "x.org", addresses := ([] : List String) } :: []) =
      NewDNSQueriesList 0 [exampleResolveEvent] ++ NewDNSQueriesList 0 [] :=
  ⟨rfl, (claim_C9 0
    { name := "resolve_done", time := 3, err := some "dns_nxdomain_error",
      hostname := "x.org", addresses := [] }
    [exampleResolveEvent] [] rfl rfl).2⟩

/-! ### Network events list (claim C8) -/

/-- Claim C8 counterexample: the untyped fallback entry does not carry
the event's protocol tag — a `tls_handshake_done` event with protocol
`tcp` produces an entry whose protocol field is empty. -/
theorem claim_C8_counterexample :
    NewNetworkEventsList 0 [{ name := "tls_handshake_done", proto := "tcp", time := 5 }] =
      [{ failure := none, operation := "tls_handshake_done", t := 5 }] ∧
    (Event.mk "tls_handshake_done" 5 none "" "tcp" 0 "" [] none none none none 0 0 0).proto
      = "tcp" ∧
    ({ failure := none, operation := "tls_handshake_done", t := 5 } : NetworkEvent).proto
      ≠ "tcp" :=
  ⟨rfl, rfl, by decide⟩

/-- Claim C8 (amended): the network-events serializer emits exactly one
entry per event, in trace order; every entry carries the event's failure
(nil exactly when the error is nil, and the field is always present),
the byte count for `read`/`write` operations (zero otherwise), and the
protocol tag for `connect`/`read`/`write` operations (the untyped
fallback leaves the protocol empty). -/
theorem claim_C8_amended (begin : Int) (events : List Event) :
    NewNetworkEventsList begin events = events.map (toNetworkEvent begin) ∧
    (NewNetworkEventsList begin events).length = events.length ∧
    ∀ ev : Event,
      (toNetworkEvent begin ev).failure = makeFailure ev.err ∧
      ((toNetworkEvent begin ev).failure = none ↔ ev.err = none) ∧
      (toNetworkEvent begin ev).operation = ev.name ∧
      (toNetworkEvent begin ev).t = ev.time - begin ∧
      (toNetworkEvent begin ev).numBytes =
        (if ev.name = "read" ∨ ev.name = "write" then ev.numBytes else 0) ∧
      (toNetworkEvent begin ev).proto =
        (if ev.name = "connect" ∨ ev.name = "read" ∨ ev.name = "write"
         then ev.proto else "") := by
  have hmap : ∀ evs : List Event, NewNetworkEventsList begin evs =
      evs.map (toNetworkEvent begin) := by
    intro evs
    induction evs with
    | nil => rfl
    | cons ev rest ih =>
      simp only [NewNetworkEventsList, toNetworkEvent, List.map_cons]
      split_ifs <;> simp [ih]
  have hfail : ∀ e : Option String, (makeFailure e = none ↔ e = none) := by
    intro e
    cases e <;> simp [makeFailure]
  refine ⟨hmap events, by rw [hmap events]; simp, ?_⟩
  intro ev
  unfold toNetworkEvent
  split_ifs with h1 h2 h3 <;>
    simp_all [hfail ev.err]

/-! ### Concurrent appends to the trace (claim C10) -/

/-- The single event a task with correlation id `tid` appends. -/
def mkTaskEvent (tid : Int) : Event :=
  { name := "task_event", transactionID := tid }

/-- Claim C10: any interleaved execution of N single-append tasks with
distinct correlation ids yields a trace with exactly N entries, whose
correlation ids are a permutation of the task ids with no duplicate or
missing id, and with every task's own sequence order preserved. -/
theorem claim_C10 (ids : List Int) (tasks : List (List Event)) (out : List Event)
    (htasks : tasks = ids.map (fun i => [mkTaskEvent i])) (hids : ids.Nodup)
    (hm : Merge tasks out) :
    out.length = ids.length ∧
    (out.map Event.transactionID).Perm ids ∧
    (out.map Event.transactionID).Nodup ∧
    (∀ i ∈ ids, i ∈ out.map Event.transactionID) ∧
    (∀ j ts, tasks.get? j = some ts → ts.Sublist out) := by
  have hperm := merge_perm hm
  have hjoin : ∀ l : List Int, (l.map (fun i => [mkTaskEvent i])).join = l.map mkTaskEvent := by
    intro l
    induction l with
    | nil => rfl
    | cons i rest ih => simp [ih]
  rw [htasks, hjoin ids] at hperm
  have hmapped : (out.map Event.transactionID).Perm ids := by
    have hcomp := hperm.map Event.transactionID
    rw [List.map_map] at hcomp
    have hid : (Event.transactionID ∘ mkTaskEvent) = (fun i : Int => i) :=
      funext fun i => rfl
    rw [hid, List.map_id'] at hcomp
    exact hcomp
  refine ⟨?_, hmapped, ?_, ?_, merge_sublist hm⟩
  · have := hperm.length_eq
    simpa using this
  · exact hmapped.nodup_iff.mpr hids
  · intro i hi
    exact hmapped.mem_iff.mpr hi

/-- Witness for C10: a concrete interleaving of two one-event tasks (the
second task's append lands first) loses nothing: both ids appear exactly
once and each task's order is preserved. -/
theorem claim_C10_witness :
    ([1, 2] : List Int).Nodup ∧
    Merge [[mkTaskEvent 1], [mkTaskEvent 2]] [mkTaskEvent 2, mkTaskEvent 1] ∧
    [mkTaskEvent 2, mkTaskEvent 1].length = 2 ∧
    ([mkTaskEvent 2, mkTaskEvent 1].map Event.transactionID).Nodup := by
  have hdone : Merge [([] : List Event), []] [] := by
    refine Merge.done _ ?_
    intro ts hts
    rcases List.mem_cons.mp hts with rfl | hts'
    · rfl
    · rcases List.mem_cons.mp hts' with rfl | hts''
      · rfl
      · cases hts''
  have hstep1 : Merge [[mkTaskEvent 1], ([] : List Event)] [mkTaskEvent 1] :=
    Merge.step _ 0 (mkTaskEvent 1) [] [] rfl hdone
  have hmerge : Merge [[mkTaskEvent 1], [mkTaskEvent 2]]
      [mkTaskEvent 2, mkTaskEvent 1] :=
    Merge.step _ 1 (mkTaskEvent 2) [] [mkTaskEvent 1] rfl hstep1
  have h := claim_C10 [1, 2] [[mkTaskEvent 1], [mkTaskEvent 2]]
    [mkTaskEvent 2, mkTaskEvent 1] rfl (by decide) hmerge
  exact ⟨by decide, hmerge, h.1, h.2.2.1⟩

end ProbeEngine
